import Mathlib

/-!
Shallow embedding of the scan-score-allocate pipeline of `src/app.py`
(a streamlit stock screener and budget allocator).

Modelling conventions:
* Prices and all other real-valued quantities are exact rationals (`ℚ`);
  Python's float arithmetic is idealised as exact field arithmetic.
* A pandas `Series` of closes is a `List ℚ` in chronological order.
* `hist['Close'].diff()` produces a series whose first entry is `NaN`;
  `delta.where(delta > 0, 0)` maps that `NaN` to `0` (the condition is false
  for `NaN`), so the gain/loss series have the same length as the close
  series, with a leading `0`.  The embedding keeps that leading `0` and the
  full-length denominator of `.mean()` faithfully.
* The `try/except: return None` wrapper of `analyze_stock` is modelled by
  `analyze_stock_run`, which maps a failed fetch (any exception raised
  inside the `try` body, e.g. by `yf.Ticker(...).history`) to `none`.
* The dataframe operations of the allocation block (lines 135-154) are
  explicit list operations: `filter`, `head`/`take`, column maps.
-/

namespace StockApp

/-- One row of the results dataframe: the dictionary returned by
`analyze_stock` (lines 85-91). -/
structure IndicatorResult where
  ticker : String
  price : ℚ
  score : ℤ
  rsi : ℚ
  trend : String
  deriving Repr, DecidableEq

/-- `hist['Close'].diff()` without its leading `NaN`:
the day-over-day differences `C[i] - C[i-1]` (line 69). -/
def deltas (closes : List ℚ) : List ℚ :=
  List.zipWith (fun a b => a - b) closes.tail closes

/-- pandas `.mean()` on a series without `NaN` entries: sum over length.
(On the empty series the embedding returns `0` by `ℚ` convention; the code
only takes means of nonempty series because of the length-10 guard.) -/
def seriesMean (l : List ℚ) : ℚ := l.sum / l.length

/-- `delta.where(delta > 0, 0)` (line 70): positive deltas kept, everything
else (including the leading `NaN` of `diff`, for which the condition is
false) replaced by `0`. -/
def gainSeries (closes : List ℚ) : List ℚ :=
  0 :: (deltas closes).map (fun d => if d > 0 then d else 0)

/-- `-delta.where(delta < 0, 0)` (line 71): negative deltas kept and negated,
everything else replaced by `0`; leading `NaN` becomes `0`. -/
def lossSeries (closes : List ℚ) : List ℚ :=
  0 :: (deltas closes).map (fun d => -(if d < 0 then d else 0))

/-- `gain = (delta.where(delta > 0, 0)).mean()` (line 70). -/
def avgGain (closes : List ℚ) : ℚ := seriesMean (gainSeries closes)

/-- `loss = (-delta.where(delta < 0, 0)).mean()` (line 71). -/
def avgLoss (closes : List ℚ) : ℚ := seriesMean (lossSeries closes)

/-- `rs = gain / loss if loss != 0 else 0` (line 72). -/
def rsOf (closes : List ℚ) : ℚ :=
  if avgLoss closes ≠ 0 then avgGain closes / avgLoss closes else 0

/-- `rsi = 100 - (100 / (1 + rs))` (line 73). -/
def rsiOf (closes : List ℚ) : ℚ := 100 - 100 / (1 + rsOf closes)

/-- `current = hist['Close'].iloc[-1]` (line 65); guarded nonempty by the
length-10 check, so the default value of `getLastD` is never relevant. -/
def currentOf (closes : List ℚ) : ℚ := closes.getLastD 0

/-- `sma_20 = hist['Close'].tail(20).mean()` (line 66): mean of the last 20
closes, or of all of them when fewer than 20 exist. -/
def sma20Of (closes : List ℚ) : ℚ :=
  seriesMean (closes.drop (closes.length - 20))

/-- `momentum = (current - hist['Close'].iloc[0]) / hist['Close'].iloc[0]`
(line 76). -/
def momentumOf (closes : List ℚ) : ℚ :=
  (currentOf closes - closes.headD 0) / closes.headD 0

/-- The score block (lines 79-83): start at 50; `+15` if `rsi < 35`, else
`-15` if `rsi > 70`; `+15` if `current > sma_20`; `+10` if `momentum > 0`. -/
def scoreOf (closes : List ℚ) : ℤ :=
  let s0 : ℤ := 50
  let s1 := if rsiOf closes < 35 then s0 + 15
    else if rsiOf closes > 70 then s0 - 15 else s0
  let s2 := if currentOf closes > sma20Of closes then s1 + 15 else s1
  if momentumOf closes > 0 then s2 + 10 else s2

/-- The body of `analyze_stock` (lines 63-91) applied to a successfully
fetched close series: `None` when fewer than 10 observations, otherwise the
result dictionary, with the `.NS` suffix stripped from the display ticker. -/
def analyze_stock (ticker : String) (closes : List ℚ) : Option IndicatorResult :=
  if closes.length < 10 then none
  else some
    { ticker := ticker.replace ".NS" ""
      price := currentOf closes
      score := scoreOf closes
      rsi := rsiOf closes
      trend := if currentOf closes > sma20Of closes then "Bullish" else "Bearish" }

/-- `analyze_stock` including its `try/except` wrapper (lines 60-93): an
exception anywhere inside the `try` body (modelled as a failed fetch) is
swallowed and becomes `None`. -/
def analyze_stock_run (ticker : String) (fetched : Except String (List ℚ)) :
    Option IndicatorResult :=
  match fetched with
  | Except.error _ => none
  | Except.ok closes => analyze_stock ticker closes

/-- The scan loop (lines 120-126): per ticker, run the analysis and collect
the non-`None` results in input order (`if data: results.append(data)`). -/
def scan_results (tickers : List String) (fetch : String → Except String (List ℚ)) :
    List IndicatorResult :=
  tickers.filterMap (fun t => analyze_stock_run t (fetch t))

/-- The full-market ticker cap (lines 113-117): lists longer than 200 entries
are cut to their first 200, and the degradation warning is shown (the `Bool`
component models whether `st.warning` ran). -/
def cap_ticker_list (tickers : List String) : List String × Bool :=
  if tickers.length > 200 then (tickers.take 200, true) else (tickers, false)

/-- One row of the allocation dataframe after the `Qty` and `Total Cost`
columns are added (lines 146-147). -/
structure AllocationLine where
  ticker : String
  price : ℚ
  score : ℤ
  rsi : ℚ
  trend : String
  qty : ℤ
  totalCost : ℚ
  deriving Repr, DecidableEq

/-- The three terminal outcomes of a run: `st.error("No data found."); st.stop()`
(lines 130-132), `st.error("No stocks found under ...")` (line 142), or the
results dashboard (lines 152-159). -/
inductive RunOutcome where
  | emptyScan : RunOutcome
  | noAffordableStocks (cap : ℚ) : RunOutcome
  | success (lines : List AllocationLine) (totalInvested savings : ℚ) : RunOutcome
  deriving Repr, DecidableEq

/-- One allocation row: `Qty = target_per_stock // Price` (floor division,
line 146) and `Total Cost = Qty * Price` (line 147). -/
def mkLine (cap : ℚ) (r : IndicatorResult) : AllocationLine :=
  { ticker := r.ticker, price := r.price, score := r.score, rsi := r.rsi, trend := r.trend
    qty := ⌊cap / r.price⌋
    totalCost := (⌊cap / r.price⌋ : ℚ) * r.price }

/-- `affordable_df = df[df['Price'] <= target_per_stock]` (line 139). -/
def affordable_df (df : List IndicatorResult) (cap : ℚ) : List IndicatorResult :=
  df.filter (fun r => r.price ≤ cap)

/-- The surviving allocation rows (lines 145-150): take the top
`num_stocks` affordable rows, build `Qty`/`Total Cost`, then drop rows with
`Qty == 0` (the code keeps rows with `Qty > 0`). -/
def allocLines (df : List IndicatorResult) (cap : ℚ) (num_stocks : ℕ) :
    List AllocationLine :=
  (((affordable_df df cap).take num_stocks).map (mkLine cap)).filter
    (fun l => 0 < l.qty)

/-- The allocation block (lines 138-159): `target_per_stock = budget / num_stocks`;
fail when nothing is affordable, otherwise report the surviving rows,
`total_invested` and `savings = budget - total_invested`. -/
def allocate (df : List IndicatorResult) (budget : ℚ) (num_stocks : ℕ) : RunOutcome :=
  let target_per_stock := budget / (num_stocks : ℚ)
  if (affordable_df df target_per_stock).isEmpty then
    RunOutcome.noAffordableStocks target_per_stock
  else
    RunOutcome.success (allocLines df target_per_stock num_stocks)
      ((allocLines df target_per_stock num_stocks).map AllocationLine.totalCost).sum
      (budget - ((allocLines df target_per_stock num_stocks).map AllocationLine.totalCost).sum)

/-- Stable score-descending insertion used to model line 136
(`df.sort_values(by="Score", ascending=False)`): an element is placed before
the first strictly smaller score.  Note: the code delegates to pandas with
numpy's default `quicksort`; that algorithm's tie order beyond numpy's
small-array insertion-sort regime is not guaranteed by the library contract,
so this model's tie order is only asserted where a claim does not depend on
it. -/
def insertDesc (r : IndicatorResult) : List IndicatorResult → List IndicatorResult
  | [] => [r]
  | x :: xs => if r.score > x.score then r :: x :: xs else x :: insertDesc r xs

/-- Score-descending sort of the scan results (line 136). -/
def sort_by_score_desc (df : List IndicatorResult) : List IndicatorResult :=
  df.foldr insertDesc []

/-- The whole run after the button press (lines 108-159), with the UI layers
stripped: scan, stop on an empty result set, otherwise sort and allocate. -/
def run_pipeline (tickers : List String) (fetch : String → Except String (List ℚ))
    (budget : ℚ) (num_stocks : ℕ) : RunOutcome :=
  if (scan_results tickers fetch).isEmpty then RunOutcome.emptyScan
  else allocate (sort_by_score_desc (scan_results tickers fetch)) budget num_stocks

/-- Claim C7's (and the spec's §4.2 step 4) wording of the average gain: the
mean of `max(Δ[i], 0)` taken over the `n-1` day-over-day deltas themselves,
zero-valued deltas included.  Stated from the spec, to be compared with
`avgGain`, which the code computes with denominator `n`. -/
def specAvgGain (closes : List ℚ) : ℚ :=
  ((deltas closes).map (fun d => max d 0)).sum / ((deltas closes).length : ℚ)

/-- Claim C7's wording of the average loss: the mean of `max(-Δ[i], 0)` over
the `n-1` deltas. -/
def specAvgLoss (closes : List ℚ) : ℚ :=
  ((deltas closes).map (fun d => max (-d) 0)).sum / ((deltas closes).length : ℚ)

/-- Claim C7's `rs`: `avgGain / avgLoss` if `avgLoss != 0` else `0`, with the
spec's per-delta means. -/
def specRs (closes : List ℚ) : ℚ :=
  if specAvgLoss closes ≠ 0 then specAvgGain closes / specAvgLoss closes else 0

/-- Claim C7's `rsi = 100 - 100/(1+rs)` over the spec's `rs`. -/
def specRsi (closes : List ℚ) : ℚ := 100 - 100 / (1 + specRs closes)

end StockApp

namespace StockApp

lemma length_deltas (closes : List ℚ) : (deltas closes).length = closes.length - 1 := by
  simp [deltas]

lemma analyze_stock_some {ticker : String} {closes : List ℚ} {res : IndicatorResult}
    (h : analyze_stock ticker closes = some res) :
    10 ≤ closes.length ∧
      res = { ticker := ticker.replace ".NS" ""
              price := currentOf closes
              score := scoreOf closes
              rsi := rsiOf closes
              trend := if currentOf closes > sma20Of closes then "Bullish" else "Bearish" } := by
  by_cases hlen : closes.length < 10
  · simp [analyze_stock, hlen] at h
  · rw [analyze_stock, if_neg hlen] at h
    exact ⟨by omega, (Option.some.inj h).symm⟩

lemma mkLine_qty (cap : ℚ) (r : IndicatorResult) : (mkLine cap r).qty = ⌊cap / r.price⌋ := rfl

lemma mkLine_price (cap : ℚ) (r : IndicatorResult) : (mkLine cap r).price = r.price := rfl

lemma mkLine_cost (cap : ℚ) (r : IndicatorResult) :
    (mkLine cap r).totalCost = (⌊cap / r.price⌋ : ℚ) * r.price := rfl

lemma allocate_success {df : List IndicatorResult} {budget : ℚ} {num_stocks : ℕ}
    {lines : List AllocationLine} {total sav : ℚ}
    (h : allocate df budget num_stocks = RunOutcome.success lines total sav) :
    lines = allocLines df (budget / (num_stocks : ℚ)) num_stocks ∧
      total = (lines.map AllocationLine.totalCost).sum ∧
      sav = budget - total := by
  simp only [allocate] at h
  split at h
  · exact (RunOutcome.noConfusion h)
  · obtain ⟨h1, h2, h3⟩ := RunOutcome.success.injEq .. ▸ h
    refine ⟨h1.symm, ?_, ?_⟩
    · rw [h2.symm, h1]
    · rw [h3.symm, h2.symm, h1]

lemma mem_allocLines {df : List IndicatorResult} {cap : ℚ} {ns : ℕ} {l : AllocationLine}
    (hl : l ∈ allocLines df cap ns) :
    ∃ r ∈ df, r.price ≤ cap ∧ l = mkLine cap r ∧ 0 < l.qty := by
  unfold allocLines at hl
  have hq : 0 < l.qty := by simpa using List.of_mem_filter hl
  obtain ⟨r, hr, rfl⟩ := List.mem_map.1 (List.mem_of_mem_filter hl)
  have hmem := List.mem_filter.1 (List.mem_of_mem_take hr)
  exact ⟨r, hmem.1, by simpa [affordable_df] using hmem.2, rfl, hq⟩

lemma mkLine_cost_le {cap : ℚ} {r : IndicatorResult} (hcap : 0 < cap)
    (_hr : r.price ≤ cap) (hq : 0 < (mkLine cap r).qty) :
    ((mkLine cap r).qty : ℚ) * r.price ≤ cap := by
  rw [mkLine_qty] at hq ⊢
  have hx : (1 : ℚ) ≤ cap / r.price := by
    have h1 : (1 : ℤ) ≤ ⌊cap / r.price⌋ := hq
    exact_mod_cast Int.le_floor.1 h1
  have hp : 0 < r.price := by
    rcases lt_trichotomy r.price 0 with h | h | h
    · have : cap / r.price < 0 := div_neg_of_pos_of_neg hcap h
      linarith
    · rw [h, div_zero] at hx; linarith
    · exact h
  calc (⌊cap / r.price⌋ : ℚ) * r.price
      ≤ (cap / r.price) * r.price := mul_le_mul_of_nonneg_right (Int.floor_le _) hp.le
    _ = cap := div_mul_cancel₀ _ (ne_of_gt hp)

lemma mkLine_qty_pos {cap : ℚ} {r : IndicatorResult} (hle : r.price ≤ cap) (hp : 0 < r.price) :
    1 ≤ (mkLine cap r).qty := by
  rw [mkLine_qty]
  apply Int.le_floor.2
  push_cast
  exact (one_le_div hp).2 hle

end StockApp

namespace StockApp

lemma scoreOf_eq (closes : List ℚ) :
    scoreOf closes =
      50 + (if rsiOf closes < 35 then 15 else if rsiOf closes > 70 then -15 else 0)
        + (if currentOf closes > sma20Of closes then 15 else 0)
        + (if momentumOf closes > 0 then 10 else 0) := by
  simp only [scoreOf]
  split_ifs <;> ring

lemma scoreOf_bounds (closes : List ℚ) : 35 ≤ scoreOf closes ∧ scoreOf closes ≤ 90 := by
  simp only [scoreOf]
  split_ifs <;> omega

lemma gainSeries_sum (closes : List ℚ) :
    (gainSeries closes).sum = ((deltas closes).map (fun d => max d 0)).sum := by
  unfold gainSeries
  rw [List.sum_cons, zero_add]
  congr 1
  apply List.map_congr_left
  intro d _
  rcases le_or_lt d 0 with h | h
  · rw [if_neg (not_lt.2 h), max_eq_right h]
  · rw [if_pos h, max_eq_left h.le]

lemma lossSeries_sum (closes : List ℚ) :
    (lossSeries closes).sum = ((deltas closes).map (fun d => max (-d) 0)).sum := by
  unfold lossSeries
  rw [List.sum_cons, zero_add]
  congr 1
  apply List.map_congr_left
  intro d _
  rcases lt_or_le d 0 with h | h
  · rw [if_pos h, max_eq_left (by linarith)]
  · rw [if_neg (not_lt.2 h), neg_zero, max_eq_right (by linarith)]

lemma gainSeries_length {closes : List ℚ} (h : 1 ≤ closes.length) :
    (gainSeries closes).length = closes.length := by
  simp only [gainSeries, List.length_cons, List.length_map, length_deltas]
  omega

lemma lossSeries_length {closes : List ℚ} (h : 1 ≤ closes.length) :
    (lossSeries closes).length = closes.length := by
  simp only [lossSeries, List.length_cons, List.length_map, length_deltas]
  omega

lemma avgGain_eq {closes : List ℚ} (h : 1 ≤ closes.length) :
    avgGain closes = ((deltas closes).map (fun d => max d 0)).sum / (closes.length : ℚ) := by
  unfold avgGain seriesMean
  rw [gainSeries_sum, gainSeries_length h]

lemma avgLoss_eq {closes : List ℚ} (h : 1 ≤ closes.length) :
    avgLoss closes = ((deltas closes).map (fun d => max (-d) 0)).sum / (closes.length : ℚ) := by
  unfold avgLoss seriesMean
  rw [lossSeries_sum, lossSeries_length h]

lemma div_div_same (a b : ℚ) {k : ℚ} (hk : k ≠ 0) : (a / k) / (b / k) = a / b := by
  rcases eq_or_ne b 0 with rfl | hb
  · simp
  · field_simp

lemma rsOf_eq_specRs {closes : List ℚ} (h : 2 ≤ closes.length) :
    rsOf closes = specRs closes := by
  have h1 : 1 ≤ closes.length := by omega
  have hn : ((closes.length : ℕ) : ℚ) ≠ 0 := Nat.cast_ne_zero.2 (by omega)
  have hm : (((deltas closes).length : ℕ) : ℚ) ≠ 0 := by
    rw [length_deltas]
    exact Nat.cast_ne_zero.2 (by omega)
  unfold rsOf specRs specAvgGain specAvgLoss
  rw [avgGain_eq h1, avgLoss_eq h1]
  set G := ((deltas closes).map (fun d => max d 0)).sum with hG
  set L := ((deltas closes).map (fun d => max (-d) 0)).sum with hL
  rcases eq_or_ne L 0 with hL0 | hL0
  · rw [hL0]
    simp
  · rw [if_pos (div_ne_zero hL0 hn), if_pos (div_ne_zero hL0 hm),
      div_div_same G L hn, div_div_same G L hm]

lemma rsiOf_eq_specRsi {closes : List ℚ} (h : 2 ≤ closes.length) :
    rsiOf closes = specRsi closes := by
  unfold rsiOf specRsi
  rw [rsOf_eq_specRs h]

end StockApp

namespace StockApp

/-- A 10-observation close series with both gains and losses, used to
instantiate the hypotheses of several theorems on concrete data. -/
def demoCloses : List ℚ := [100, 102, 101, 105, 103, 108, 107, 110, 109, 112]

/-- The result `analyze_stock "TCS.NS" demoCloses` produces. -/
def demoRes : IndicatorResult :=
  { ticker := String.replace "TCS.NS" ".NS" ""
    price := currentOf demoCloses
    score := scoreOf demoCloses
    rsi := rsiOf demoCloses
    trend := if currentOf demoCloses > sma20Of demoCloses then "Bullish" else "Bearish" }

/-- A strictly rising 10-observation close series: every delta is positive,
so the average loss is zero. -/
def demoUp : List ℚ := [100, 101, 102, 103, 104, 105, 106, 107, 108, 109]

/-- The result `analyze_stock "WIPRO.NS" demoUp` produces. -/
def demoUpRes : IndicatorResult :=
  { ticker := String.replace "WIPRO.NS" ".NS" ""
    price := currentOf demoUp
    score := scoreOf demoUp
    rsi := rsiOf demoUp
    trend := if currentOf demoUp > sma20Of demoUp then "Bullish" else "Bearish" }

/-- Claim C1: for every price series accepted by analyze (at least 10
observations) in which every day-over-day delta is non-negative (so
`avgLoss = 0`), the computed `rs` equals `0`, the analysis succeeds, and the
returned `rsi` equals exactly `0` per the literal formula
`rsi = 100 - 100/(1+rs)` — not the textbook RSI value of 100. -/
theorem rsi_zero_of_no_losses (ticker : String) (closes : List ℚ)
    (hlen : 10 ≤ closes.length) (hmono : ∀ d ∈ deltas closes, 0 ≤ d) :
    rsOf closes = 0 ∧ (analyze_stock ticker closes).isSome = true ∧
      ∀ res, analyze_stock ticker closes = some res → res.rsi = 0 := by
  have hsum : (lossSeries closes).sum = 0 := by
    apply List.sum_eq_zero
    intro x hx
    simp only [lossSeries, List.mem_cons, List.mem_map] at hx
    rcases hx with rfl | ⟨d, hd, rfl⟩
    · rfl
    · rw [if_neg (not_lt.2 (hmono d hd))]
      exact neg_zero
  have hloss : avgLoss closes = 0 := by
    unfold avgLoss seriesMean
    rw [hsum, zero_div]
  have hrs : rsOf closes = 0 := by
    unfold rsOf
    simp [hloss]
  refine ⟨hrs, ?_, ?_⟩
  · rw [analyze_stock, if_neg (by omega)]
    rfl
  · intro res h
    obtain ⟨-, rfl⟩ := analyze_stock_some h
    show rsiOf closes = 0
    unfold rsiOf
    rw [hrs]
    norm_num

/-- Witness for C1: on the strictly rising series `demoUp`, `rs = 0` and the
returned `rsi` is exactly `0`. -/
theorem rsi_zero_of_no_losses_witness :
    rsOf demoUp = 0 ∧ demoUpRes.rsi = 0 := by
  have h := rsi_zero_of_no_losses "WIPRO.NS" demoUp (by norm_num [demoUp])
    (by norm_num [deltas, demoUp])
  exact ⟨h.1, h.2.2 demoUpRes rfl⟩

/-- Claim C3: for every accepted price series the returned score is 50, plus
15 if `rsi < 35` else minus 15 if `rsi > 70`, plus 15 if `current > sma20`,
plus 10 if `momentum > 0`; consequently every returned score lies in
`[35, 90]`. -/
theorem score_rule_and_bounds (ticker : String) (closes : List ℚ) (res : IndicatorResult)
    (h : analyze_stock ticker closes = some res) :
    res.score = 50 + (if rsiOf closes < 35 then 15 else if rsiOf closes > 70 then -15 else 0)
        + (if currentOf closes > sma20Of closes then 15 else 0)
        + (if momentumOf closes > 0 then 10 else 0)
      ∧ 35 ≤ res.score ∧ res.score ≤ 90 := by
  obtain ⟨-, rfl⟩ := analyze_stock_some h
  exact ⟨scoreOf_eq closes, (scoreOf_bounds closes).1, (scoreOf_bounds closes).2⟩

/-- Witness for C3: the analysis of `demoCloses` (rsi = 850/11 > 70, current
above the moving average, positive momentum) scores 50 - 15 + 15 + 10 = 60,
inside `[35, 90]`. -/
theorem score_rule_and_bounds_witness :
    35 ≤ demoRes.score ∧ demoRes.score ≤ 90 ∧ demoRes.score = 60 := by
  have h := score_rule_and_bounds "TCS.NS" demoCloses demoRes rfl
  refine ⟨h.2.1, h.2.2, ?_⟩
  norm_num [demoRes, scoreOf, rsiOf, rsOf, avgLoss, avgGain, seriesMean, gainSeries,
    lossSeries, deltas, currentOf, sma20Of, momentumOf, demoCloses]

/-- Claim C7: for every accepted price series the returned `rsi` equals
`100 - 100/(1+rs)` with `rs = avgGain/avgLoss` if `avgLoss != 0` else `0`,
where `avgGain`/`avgLoss` are the means of the positive/negative parts taken
over the `n-1` day-over-day deltas (zero deltas included).  The code divides
both sums by `n` instead (the leading `NaN` of `diff` is averaged in as `0`),
but the ratio `rs`, its zero test, and hence the returned `rsi` coincide with
the spec's per-delta means. -/
theorem rsi_matches_spec_mean (ticker : String) (closes : List ℚ) (res : IndicatorResult)
    (h : analyze_stock ticker closes = some res) :
    res.rsi = specRsi closes := by
  obtain ⟨hlen, rfl⟩ := analyze_stock_some h
  exact rsiOf_eq_specRsi (by omega)

/-- Witness for C7: on `demoCloses` (gains summing to 17, losses to 5 over 9
deltas) the returned `rsi` equals the spec formula's value `850/11`. -/
theorem rsi_matches_spec_mean_witness :
    demoRes.rsi = specRsi demoCloses ∧ specRsi demoCloses = 850 / 11 := by
  refine ⟨rsi_matches_spec_mean "TCS.NS" demoCloses demoRes rfl, ?_⟩
  norm_num [specRsi, specRs, specAvgGain, specAvgLoss, deltas, demoCloses]

end StockApp

namespace StockApp

/-- A cheap high-score candidate (spec §8 scenario: score 70, price 100). -/
def rA : IndicatorResult :=
  { ticker := "A", price := 100, score := 70, rsi := 50, trend := "Bullish" }

/-- An expensive candidate (spec §8 scenario: score 60, price 40000). -/
def rB : IndicatorResult :=
  { ticker := "B", price := 40000, score := 60, rsi := 50, trend := "Bullish" }

/-- The allocation row produced for `rA` under budget 1000 over 2 stocks:
cap 500, qty 5, cost 500. -/
def demoLineA : AllocationLine :=
  { ticker := "A", price := 100, score := 70, rsi := 50, trend := "Bullish"
    qty := 5
    totalCost := 500 }

/-- A candidate priced above any reasonable cap (spec §8 scenario: sole
candidate priced 2000 against budget 1000). -/
def rExp : IndicatorResult :=
  { ticker := "COSTLY", price := 2000, score := 50, rsi := 50, trend := "Bearish" }

/-- A provider for which every fetch fails. -/
def demoFetchErr : String → Except String (List ℚ) :=
  fun _ => Except.error "connection refused"

/-- A provider failing for the ticker `BAD.NS` and returning `demoCloses`
otherwise. -/
def demoFetch5 : String → Except String (List ℚ) :=
  fun t => if t = "BAD.NS" then Except.error "timeout" else Except.ok demoCloses

/-- Claim C2: for every allocation that succeeds under `budget > 0` and
`1 ≤ num_stocks ≤ 20`, the total invested is at most the budget, and every
output line has `qty = floor(perStockCap / price)` with
`qty * price ≤ perStockCap`, where `perStockCap = budget / num_stocks`. -/
theorem allocation_within_budget (df : List IndicatorResult) (budget : ℚ) (num_stocks : ℕ)
    (hb : 0 < budget) (h1 : 1 ≤ num_stocks) (h20 : num_stocks ≤ 20)
    (lines : List AllocationLine) (total sav : ℚ)
    (h : allocate df budget num_stocks = RunOutcome.success lines total sav) :
    total ≤ budget ∧
      ∀ l ∈ lines, l.qty = ⌊budget / (num_stocks : ℚ) / l.price⌋ ∧
        (l.qty : ℚ) * l.price ≤ budget / (num_stocks : ℚ) := by
  obtain ⟨hlines, htotal, -⟩ := allocate_success h
  have hns : ((num_stocks : ℕ) : ℚ) ≠ 0 := Nat.cast_ne_zero.2 (by omega)
  have hcap : 0 < budget / (num_stocks : ℚ) := by
    apply div_pos hb
    exact_mod_cast Nat.pos_of_ne_zero (by omega)
  constructor
  · subst htotal
    have hbound : ∀ x ∈ lines.map AllocationLine.totalCost,
        x ≤ budget / (num_stocks : ℚ) := by
      intro x hx
      obtain ⟨l, hl, rfl⟩ := List.mem_map.1 hx
      rw [hlines] at hl
      obtain ⟨r, hrdf, hrp, rfl, hq⟩ := mem_allocLines hl
      rw [mkLine_cost]
      have hc := mkLine_cost_le hcap hrp hq
      rwa [mkLine_qty] at hc
    have hsum := List.sum_le_card_nsmul (lines.map AllocationLine.totalCost) _ hbound
    rw [nsmul_eq_mul, List.length_map] at hsum
    have hlen : lines.length ≤ num_stocks := by
      rw [hlines]
      unfold allocLines
      refine le_trans (List.length_filter_le _ _) ?_
      rw [List.length_map, List.length_take]
      omega
    have hmul : (lines.length : ℚ) * (budget / (num_stocks : ℚ))
        ≤ (num_stocks : ℚ) * (budget / (num_stocks : ℚ)) :=
      mul_le_mul_of_nonneg_right (by exact_mod_cast hlen) hcap.le
    have hfin : (num_stocks : ℚ) * (budget / (num_stocks : ℚ)) = budget := by
      rw [mul_comm, div_mul_cancel₀ budget hns]
    linarith
  · intro l hl
    rw [hlines] at hl
    obtain ⟨r, hrdf, hrp, rfl, hq⟩ := mem_allocLines hl
    refine ⟨by rw [mkLine_qty, mkLine_price], ?_⟩
    rw [mkLine_price]
    exact mkLine_cost_le hcap hrp hq

/-- Witness for C2: the spec §8 scenario — candidates `rA`/`rB`, budget 1000
over 2 stocks — allocates only `rA` with qty 5, cost 500 ≤ 1000, and the
single line respects the 500 cap. -/
theorem allocation_within_budget_witness :
    (500 : ℚ) ≤ 1000 ∧ demoLineA.qty = ⌊(1000 : ℚ) / ((2 : ℕ) : ℚ) / demoLineA.price⌋ ∧
      (demoLineA.qty : ℚ) * demoLineA.price ≤ (1000 : ℚ) / ((2 : ℕ) : ℚ) := by
  have halloc : allocate [rA, rB] 1000 2 = RunOutcome.success [demoLineA] 500 500 := by
    norm_num [allocate, affordable_df, allocLines, mkLine, rA, rB, List.filter, demoLineA]
  have h := allocation_within_budget [rA, rB] 1000 2 (by norm_num) (by norm_num) (by norm_num)
    [demoLineA] 500 500 halloc
  exact ⟨h.1, (h.2 demoLineA (List.mem_singleton_self _)).1,
    (h.2 demoLineA (List.mem_singleton_self _)).2⟩

/-- Claim C5: an undersized price series yields `None`; an exception inside
the analysis `try` block yields `None` rather than a partly built result;
and a ticker whose analysis is `None` is dropped from the scan while the
remaining tickers are still processed. -/
theorem analyze_failures_absent :
    (∀ (ticker : String) (closes : List ℚ), closes.length < 10 →
        analyze_stock ticker closes = none) ∧
    (∀ (ticker msg : String), analyze_stock_run ticker (Except.error msg) = none) ∧
    (∀ (t : String) (rest : List String) (fetch : String → Except String (List ℚ)),
        analyze_stock_run t (fetch t) = none →
        scan_results (t :: rest) fetch = scan_results rest fetch) := by
  refine ⟨?_, ?_, ?_⟩
  · intro t closes hshort
    rw [analyze_stock, if_pos hshort]
  · intro t msg
    rfl
  · intro t rest fetch hnone
    simp [scan_results, List.filterMap_cons, hnone]

/-- Witness for C5: a 2-observation series yields `None`; an erroring fetch
yields `None`; dropping the failing ticker `BAD.NS` leaves the scan of the
remaining tickers unchanged. -/
theorem analyze_failures_absent_witness :
    analyze_stock "SHORT.NS" [100, 101] = none ∧
      analyze_stock_run "ERR.NS" (Except.error "timeout") = none ∧
      scan_results ["BAD.NS", "TCS.NS"] demoFetch5 = scan_results ["TCS.NS"] demoFetch5 := by
  refine ⟨analyze_failures_absent.1 "SHORT.NS" [100, 101] (by norm_num),
    analyze_failures_absent.2.1 "ERR.NS" "timeout",
    analyze_failures_absent.2.2 "BAD.NS" ["TCS.NS"] demoFetch5 ?_⟩
  rfl

/-- Claim C6: when every candidate's price exceeds `perStockCap =
budget / num_stocks`, allocation fails with the no-affordable-stocks outcome
carrying that cap and produces no lines; otherwise allocation proceeds to a
success outcome. -/
theorem no_affordable_cap (df : List IndicatorResult) (budget : ℚ) (num_stocks : ℕ) :
    ((∀ r ∈ df, budget / (num_stocks : ℚ) < r.price) →
      allocate df budget num_stocks
        = RunOutcome.noAffordableStocks (budget / (num_stocks : ℚ))) ∧
    ((∃ r ∈ df, r.price ≤ budget / (num_stocks : ℚ)) →
      ∃ lines total sav,
        allocate df budget num_stocks = RunOutcome.success lines total sav) := by
  constructor
  · intro hall
    have hemp : affordable_df df (budget / (num_stocks : ℚ)) = [] := by
      unfold affordable_df
      rw [List.filter_eq_nil_iff]
      intro r hr
      simp only [decide_eq_true_eq, not_le]
      exact hall r hr
    simp [allocate, hemp]
  · rintro ⟨r, hr, hrle⟩
    have hmem : r ∈ affordable_df df (budget / (num_stocks : ℚ)) := by
      unfold affordable_df
      rw [List.mem_filter]
      exact ⟨hr, by simpa using hrle⟩
    have hne : (affordable_df df (budget / (num_stocks : ℚ))).isEmpty = false := by
      rw [List.isEmpty_eq_false]
      exact List.ne_nil_of_mem hmem
    refine ⟨allocLines df (budget / (num_stocks : ℚ)) num_stocks,
      ((allocLines df (budget / (num_stocks : ℚ)) num_stocks).map
        AllocationLine.totalCost).sum,
      budget - ((allocLines df (budget / (num_stocks : ℚ)) num_stocks).map
        AllocationLine.totalCost).sum, ?_⟩
    simp only [allocate]
    rw [if_neg (by simp [hne])]

/-- Witness for C6: budget 1000 for one stock against a sole candidate priced
2000 fails with the computed cap 1000. -/
theorem no_affordable_cap_witness :
    allocate [rExp] 1000 1 = RunOutcome.noAffordableStocks 1000 := by
  have hall : ∀ r ∈ [rExp], (1000 : ℚ) / ((1 : ℕ) : ℚ) < r.price := by
    intro r hr
    rw [List.mem_singleton] at hr
    subst hr
    norm_num [rExp]
  have h := (no_affordable_cap [rExp] 1000 1).1 hall
  rw [h]
  norm_num

/-- Claim C8: when the collected scan result sequence is empty, the run
signals the distinct empty-scan outcome and stops without attempting
allocation. -/
theorem empty_scan_stops_run (tickers : List String)
    (fetch : String → Except String (List ℚ)) (budget : ℚ) (num_stocks : ℕ)
    (h : scan_results tickers fetch = []) :
    run_pipeline tickers fetch budget num_stocks = RunOutcome.emptyScan := by
  simp [run_pipeline, h]

/-- Witness for C8: with a provider for which every fetch fails, a two-ticker
run terminates in the empty-scan outcome. -/
theorem empty_scan_stops_run_witness :
    run_pipeline ["RELIANCE.NS", "TCS.NS"] demoFetchErr 50000 5 = RunOutcome.emptyScan :=
  empty_scan_stops_run ["RELIANCE.NS", "TCS.NS"] demoFetchErr 50000 5 rfl

/-- Claim C9: in full-market mode at most 200 tickers are processed; when the
external list has more than 200 entries, exactly its first 200 entries (in
original order) are processed and the degradation notice is shown. -/
theorem ticker_list_capped (tickers : List String) :
    (cap_ticker_list tickers).1.length ≤ 200 ∧
      (200 < tickers.length →
        cap_ticker_list tickers = (tickers.take 200, true) ∧
          (cap_ticker_list tickers).1.length = 200) := by
  unfold cap_ticker_list
  by_cases h : tickers.length > 200
  · rw [if_pos h]
    refine ⟨?_, fun _ => ⟨rfl, ?_⟩⟩ <;> simp only [List.length_take] <;> omega
  · rw [if_neg h]
    refine ⟨?_, fun hc => absurd hc h⟩
    show tickers.length ≤ 200
    omega

/-- Witness for C9: a 350-symbol list is cut to exactly its first 200 entries
with the notice shown. -/
theorem ticker_list_capped_witness :
    (cap_ticker_list (List.replicate 350 "RELIANCE.NS")).1.length = 200 ∧
      cap_ticker_list (List.replicate 350 "RELIANCE.NS")
        = ((List.replicate 350 "RELIANCE.NS").take 200, true) := by
  have h350 : 200 < (List.replicate 350 "RELIANCE.NS").length := by
    rw [List.length_replicate]
    omega
  have h := (ticker_list_capped (List.replicate 350 "RELIANCE.NS")).2 h350
  exact ⟨h.2, h.1⟩

/-- Claim C10: every candidate that passes the affordability filter with a
positive price gets `qty = floor(cap/price) ≥ 1`; hence, when all candidate
prices are positive, the `Qty == 0` drop removes nothing and the final line
count equals `min num_stocks (number of affordable candidates)`. -/
theorem qty_pos_and_line_count (df : List IndicatorResult) (budget : ℚ) (num_stocks : ℕ) :
    (∀ r : IndicatorResult, r.price ≤ budget / (num_stocks : ℚ) → 0 < r.price →
        1 ≤ (mkLine (budget / (num_stocks : ℚ)) r).qty) ∧
    ((∀ r ∈ df, 0 < r.price) →
      ∀ lines total sav,
        allocate df budget num_stocks = RunOutcome.success lines total sav →
        lines = ((affordable_df df (budget / (num_stocks : ℚ))).take num_stocks).map
            (mkLine (budget / (num_stocks : ℚ))) ∧
        lines.length
          = min num_stocks (affordable_df df (budget / (num_stocks : ℚ))).length) := by
  constructor
  · intro r hle hp
    exact mkLine_qty_pos hle hp
  · intro hpos lines total sav h
    obtain ⟨hlines, -, -⟩ := allocate_success h
    have hkeep : allocLines df (budget / (num_stocks : ℚ)) num_stocks
        = ((affordable_df df (budget / (num_stocks : ℚ))).take num_stocks).map
            (mkLine (budget / (num_stocks : ℚ))) := by
      unfold allocLines
      apply List.filter_eq_self.2
      intro l hl
      obtain ⟨r, hr, rfl⟩ := List.mem_map.1 hl
      have hmem := List.mem_filter.1 (List.mem_of_mem_take hr)
      have hle : r.price ≤ budget / (num_stocks : ℚ) := by simpa using hmem.2
      have hp : 0 < r.price := hpos r hmem.1
      simp only [decide_eq_true_eq]
      exact lt_of_lt_of_le zero_lt_one (mkLine_qty_pos hle hp)
    constructor
    · rw [hlines, hkeep]
    · rw [hlines, hkeep, List.length_map, List.length_take]

/-- Witness for C10: under cap 500, candidate `rA` (price 100) gets qty ≥ 1,
and the spec §8 scenario produces exactly `min 2 1 = 1` line. -/
theorem qty_pos_and_line_count_witness :
    1 ≤ (mkLine ((1000 : ℚ) / ((2 : ℕ) : ℚ)) rA).qty ∧
      (1 : ℕ) = min 2 (affordable_df [rA, rB] ((1000 : ℚ) / ((2 : ℕ) : ℚ))).length := by
  have h := qty_pos_and_line_count [rA, rB] 1000 2
  have halloc : allocate [rA, rB] 1000 2 = RunOutcome.success [demoLineA] 500 500 := by
    norm_num [allocate, affordable_df, allocLines, mkLine, rA, rB, List.filter, demoLineA]
  have hpos : ∀ r ∈ [rA, rB], 0 < r.price := by
    intro r hr
    rcases List.mem_cons.1 hr with rfl | hr
    · norm_num [rA]
    · rw [List.mem_singleton] at hr
      subst hr
      norm_num [rB]
  have h2 := (h.2 hpos [demoLineA] 500 500 halloc).2
  refine ⟨h.1 rA (by norm_num [rA]) (by norm_num [rA]), ?_⟩
  simpa using h2

end StockApp
